import Mathlib

/-!
Verification development for the kemera-support bot.

The definitions below are a shallow embedding of the storage and
presentation layers of the repository:

* app/bot/utils/language.py         (language resolution)
* app/bot/utils/texts.py            (SUPPORTED_LANGUAGES table)
* app/bot/utils/redis/settings.py   (SettingsStorage)
* app/bot/utils/redis/faq.py        (FAQStorage)
* app/bot/utils/redis/models.py     (UserData)
* app/bot/utils/redis/redis.py      (RedisStorage.update_user)
* app/bot/manager.py                (Manager.send_message and
                                     Manager.delete_previous_message)
* app/bot/handlers/private/my_chat_member.py (thread recreation on send)

Redis hashes are modelled as association lists; Python dicts used as JSON
records are modelled as association lists from field names to a JSON-ish
value type.  Keys that Python handles as str are modelled as List Char so
that prefix manipulation (startswith / slicing) is directly the list
operations isPrefixOf / drop.
-/

/-- Key type used for Redis hash fields: a Python str as a list of chars. -/
abbrev SKey := List Char

/-- Association-list read, mirroring redis HGET on one hash. -/
def hget {κ α : Type} [DecidableEq κ] (h : List (κ × α)) (k : κ) : Option α :=
  match h with
  | [] => none
  | (k₁, v) :: t => if k₁ = k then some v else hget t k

/-- Association-list write, mirroring redis HSET on one hash: replaces the
value when the field exists, appends it otherwise. -/
def hset {κ α : Type} [DecidableEq κ] (h : List (κ × α)) (k : κ) (v : α) :
    List (κ × α) :=
  match h with
  | [] => [(k, v)]
  | (k₁, v₁) :: t => if k₁ = k then (k, v) :: t else (k₁, v₁) :: hset t k v

/-- Association-list removal, mirroring redis HDEL of one field. -/
def hdel {κ α : Type} [DecidableEq κ] (h : List (κ × α)) (k : κ) : List (κ × α) :=
  match h with
  | [] => []
  | (k₁, v₁) :: t => if k₁ = k then hdel t k else (k₁, v₁) :: hdel t k

theorem hget_hset_self {κ α : Type} [DecidableEq κ] (h : List (κ × α)) (k : κ) (v : α) :
    hget (hset h k v) k = some v := by
  induction h with
  | nil => simp [hset, hget]
  | cons p t ih =>
    by_cases hk : p.1 = k
    · simp [hset, hget, hk]
    · simp [hset, hget, hk, ih]

theorem hget_hdel_self {κ α : Type} [DecidableEq κ] (h : List (κ × α)) (k : κ) :
    hget (hdel h k) k = none := by
  induction h with
  | nil => simp [hdel, hget]
  | cons p t ih =>
    by_cases hk : p.1 = k
    · simp [hdel, hk, ih]
    · simp [hdel, hget, hk, ih]

theorem hget_hset_ne {κ α : Type} [DecidableEq κ] (h : List (κ × α)) (k k₂ : κ) (v : α)
    (hne : k ≠ k₂) : hget (hset h k v) k₂ = hget h k₂ := by
  induction h with
  | nil => simp [hset, hget, hne]
  | cons p t ih =>
    by_cases hk : p.1 = k
    · simp [hset, hget, hk, hne]
    · simp [hset, hget, hk, ih]

theorem hget_hdel_ne {κ α : Type} [DecidableEq κ] (h : List (κ × α)) (k k₂ : κ)
    (hne : k ≠ k₂) : hget (hdel h k) k₂ = hget h k₂ := by
  induction h with
  | nil => simp [hdel]
  | cons p t ih =>
    by_cases hk : p.1 = k
    · subst hk
      simp [hdel, hget, hne, ih]
    · simp [hdel, hget, hk, ih]

theorem hdel_of_absent {κ α : Type} [DecidableEq κ] (h : List (κ × α)) (k : κ)
    (habs : hget h k = none) : hdel h k = h := by
  induction h with
  | nil => simp [hdel]
  | cons p t ih =>
    by_cases hk : p.1 = k
    · simp [hget, hk] at habs
    · simp [hget, hk] at habs
      simp [hdel, hk, ih habs]

/-! ## Language resolution (app/bot/utils/language.py, texts.py) -/

/-- Table SUPPORTED_LANGUAGES from app/bot/utils/texts.py: language code
mapped to display name, in dict insertion order (ru first). -/
def SUPPORTED_LANGUAGES : List (String × String) :=
  [("ru", "🇷🇺 Русский"), ("en", "🇬🇧 English")]

/-- Keys of SUPPORTED_LANGUAGES in insertion order. -/
def supportedLanguageCodes : List String := SUPPORTED_LANGUAGES.map Prod.fst

/-- Value of next(iter(SUPPORTED_LANGUAGES.keys())): the first key. -/
def firstSupportedLanguage : String := supportedLanguageCodes.headD ""

/-- Embedding of resolve_language_code: a None argument is never a dict key,
so both the None case and the unsupported case fall through to the first
supported key. -/
def resolve_language_code (value : Option String) : String :=
  match value with
  | some v => if supportedLanguageCodes.contains v then v else firstSupportedLanguage
  | none => firstSupportedLanguage

/-! ## Settings storage (app/bot/utils/redis/settings.py) -/

/-- Prefix GREETING_PREFIX = "greeting:" of SettingsStorage. -/
def GREETING_PRE : SKey := "greeting:".toList

/-- Prefix RESOLVED_PREFIX = "resolved_message:" of SettingsStorage. -/
def RESOLVED_PRE : SKey := "resolved_message:".toList

/-- State of the settings hash: the redis hash named "settings". -/
abbrev SettingsHash := List (SKey × String)

/-- Embedding of SettingsStorage._collect_prefixed: keep the fields whose
key starts with the prefix, strip the prefix, preserve iteration order. -/
def collect_prefixed (h : SettingsHash) (pre : SKey) : List (SKey × String) :=
  match h with
  | [] => []
  | (k, v) :: t =>
    if pre.isPrefixOf k then (k.drop pre.length, v) :: collect_prefixed t pre
    else collect_prefixed t pre

/-- Embedding of SettingsStorage._get_prefixed_value. -/
def get_prefixed_value (h : SettingsHash) (pre lang : SKey) : Option String :=
  hget h (pre ++ lang)

/-- Embedding of SettingsStorage._set_prefixed_value. -/
def set_prefixed_value (h : SettingsHash) (pre lang : SKey) (text : String) : SettingsHash :=
  hset h (pre ++ lang) text

/-- Embedding of SettingsStorage._reset_prefixed_value. -/
def reset_prefixed_value (h : SettingsHash) (pre lang : SKey) : SettingsHash :=
  hdel h (pre ++ lang)

/-- Embedding of SettingsStorage.get_greeting. -/
def get_greeting (h : SettingsHash) (lang : SKey) : Option String :=
  get_prefixed_value h GREETING_PRE lang

/-- Embedding of SettingsStorage.set_greeting. -/
def set_greeting (h : SettingsHash) (lang : SKey) (text : String) : SettingsHash :=
  set_prefixed_value h GREETING_PRE lang text

/-- Embedding of SettingsStorage.reset_greeting. -/
def reset_greeting (h : SettingsHash) (lang : SKey) : SettingsHash :=
  reset_prefixed_value h GREETING_PRE lang

/-- Embedding of SettingsStorage.get_all_greetings. -/
def get_all_greetings (h : SettingsHash) : List (SKey × String) :=
  collect_prefixed h GREETING_PRE

/-- Embedding of SettingsStorage.get_resolved_message. -/
def get_resolved_message (h : SettingsHash) (lang : SKey) : Option String :=
  get_prefixed_value h RESOLVED_PRE lang

/-- Embedding of SettingsStorage.set_resolved_message. -/
def set_resolved_message (h : SettingsHash) (lang : SKey) (text : String) : SettingsHash :=
  set_prefixed_value h RESOLVED_PRE lang text

/-- Embedding of SettingsStorage.reset_resolved_message. -/
def reset_resolved_message (h : SettingsHash) (lang : SKey) : SettingsHash :=
  reset_prefixed_value h RESOLVED_PRE lang

/-- Embedding of SettingsStorage.get_all_resolved_messages. -/
def get_all_resolved_messages (h : SettingsHash) : List (SKey × String) :=
  collect_prefixed h RESOLVED_PRE

theorem greeting_key_not_resolved (l : SKey) :
    RESOLVED_PRE.isPrefixOf (GREETING_PRE ++ l) = false := by
  simp [RESOLVED_PRE, GREETING_PRE, List.isPrefixOf]

theorem resolved_key_not_greeting (l : SKey) :
    GREETING_PRE.isPrefixOf (RESOLVED_PRE ++ l) = false := by
  simp [RESOLVED_PRE, GREETING_PRE, List.isPrefixOf]

theorem collect_prefixed_hset_other (h : SettingsHash) (pre k : SKey) (v : String)
    (hk : pre.isPrefixOf k = false) :
    collect_prefixed (hset h k v) pre = collect_prefixed h pre := by
  induction h with
  | nil => simp [hset, collect_prefixed, hk]
  | cons p t ih =>
    by_cases hpk : p.1 = k
    · subst hpk
      simp [hset, collect_prefixed, hk]
    · simp [hset, collect_prefixed, hpk, ih]

/-- C9: every supported code resolves to itself; every other value
(including None) resolves to a supported code, and the resolver is a total
function, so it never raises. -/
theorem C9_resolve_language_code_spec :
    (∀ c : String, supportedLanguageCodes.contains c = true →
      resolve_language_code (some c) = c) ∧
    (∀ v : Option String,
      supportedLanguageCodes.contains (resolve_language_code v) = true) := by
  constructor
  · intro c hc
    show (if supportedLanguageCodes.contains c = true then c
          else firstSupportedLanguage) = c
    rw [if_pos hc]
  · intro v
    match v with
    | none => decide
    | some c =>
      show supportedLanguageCodes.contains
        (if supportedLanguageCodes.contains c = true then c
         else firstSupportedLanguage) = true
      by_cases hc : supportedLanguageCodes.contains c = true
      · rw [if_pos hc]
        exact hc
      · rw [if_neg hc]
        decide

/-- Witness for C9 at concrete inputs: the supported code ru resolves to
itself and the unsupported code xx resolves to a supported code. -/
theorem C9_resolve_language_code_spec_witness :
    resolve_language_code (some "ru") = "ru" ∧
    supportedLanguageCodes.contains (resolve_language_code (some "xx")) = true :=
  ⟨C9_resolve_language_code_spec.1 "ru" (by decide),
   C9_resolve_language_code_spec.2 (some "xx")⟩

/-- C7: in the settings store, a set followed by a get of the same
(category, language) returns exactly the stored text; a reset followed by a
get returns absent; and listing the overrides of one category is unchanged
by storing an override under the other category, so an override stored
under one category never shows up in the listing of the other. -/
theorem C7_settings_roundtrip_spec :
    ∀ (h : SettingsHash) (lang : SKey) (text : String),
      get_greeting (set_greeting h lang text) lang = some text ∧
      get_resolved_message (set_resolved_message h lang text) lang = some text ∧
      get_greeting (reset_greeting h lang) lang = none ∧
      get_resolved_message (reset_resolved_message h lang) lang = none ∧
      get_all_resolved_messages (set_greeting h lang text) =
        get_all_resolved_messages h ∧
      get_all_greetings (set_resolved_message h lang text) =
        get_all_greetings h := by
  intro h lang text
  refine ⟨?_, ?_, ?_, ?_, ?_, ?_⟩
  · exact hget_hset_self h (GREETING_PRE ++ lang) text
  · exact hget_hset_self h (RESOLVED_PRE ++ lang) text
  · exact hget_hdel_self h (GREETING_PRE ++ lang)
  · exact hget_hdel_self h (RESOLVED_PRE ++ lang)
  · exact collect_prefixed_hset_other h RESOLVED_PRE (GREETING_PRE ++ lang) text
      (greeting_key_not_resolved lang)
  · exact collect_prefixed_hset_other h GREETING_PRE (RESOLVED_PRE ++ lang) text
      (resolved_key_not_greeting lang)

/-! ## FAQ storage (app/bot/utils/redis/faq.py)

The opaque uuid4 identifier of add_item is modelled by a fresh counter
carried in the store state: each add consumes the next value, so generated
identifiers are unique, as uuid4 identifiers are. -/

/-- Embedding of dataclass FAQAttachment. -/
structure FAQAttachment where
  type : String
  file_id : String
  caption : Option String
deriving DecidableEq

/-- Embedding of dataclass FAQItem, with the opaque string id as a Nat. -/
structure FAQItem where
  id : Nat
  title : String
  text : Option String
  attachments : List FAQAttachment
deriving DecidableEq

/-- State owned by FAQStorage: the hash faq:items, the redis list
faq:order, and the supply of fresh identifiers standing for uuid4. -/
structure FAQStore where
  items : List (Nat × FAQItem)
  order : List Nat
  nextId : Nat
deriving DecidableEq

/-- Store with no FAQ entries. -/
def emptyFAQStore : FAQStore := ⟨[], [], 0⟩

/-- Embedding of FAQStorage.get_item: HGET on faq:items. -/
def get_item (s : FAQStore) (id : Nat) : Option FAQItem := hget s.items id

/-- Embedding of LREM key 0 value: removes every occurrence of the value
from the redis list. -/
def lrem (l : List Nat) (id : Nat) : List Nat :=
  match l with
  | [] => []
  | x :: t => if x = id then lrem t id else x :: lrem t id

/-- Embedding of FAQStorage.add_item: build the item around a fresh id,
HSET it under faq:items and RPUSH the id onto faq:order. -/
def add_item (s : FAQStore) (title : String) (text : Option String)
    (attachments : List FAQAttachment) : FAQStore × FAQItem :=
  let item : FAQItem := ⟨s.nextId, title, text, attachments⟩
  (⟨hset s.items s.nextId item, s.order ++ [s.nextId], s.nextId + 1⟩, item)

/-- Embedding of FAQStorage.delete_item: HDEL from faq:items and LREM from
faq:order. -/
def delete_item (s : FAQStore) (id : Nat) : FAQStore :=
  ⟨hdel s.items id, lrem s.order id, s.nextId⟩

/-- Embedding of FAQStorage.list_items: walk faq:order, fetch each item,
skip identifiers whose entry is missing. -/
def list_items (s : FAQStore) : List FAQItem :=
  s.order.filterMap (fun id => get_item s id)

/-- One operation of the add / delete fragment of FAQStorage. -/
inductive FAQOp where
  | add (title : String) (text : Option String) (attachments : List FAQAttachment)
  | del (id : Nat)

/-- Interpretation of one FAQ operation on the store. -/
def runFAQOp (s : FAQStore) (op : FAQOp) : FAQStore :=
  match op with
  | .add title text attachments => (add_item s title text attachments).1
  | .del id => delete_item s id

/-- Interpretation of a sequence of FAQ operations from the empty store. -/
def runFAQOps (ops : List FAQOp) : FAQStore :=
  ops.foldl runFAQOp emptyFAQStore

/-- Identifiers assigned to the add operations of a sequence, in execution
order, when the fresh counter starts at next. -/
def addedIdsAux (ops : List FAQOp) (next : Nat) : List Nat :=
  match ops with
  | [] => []
  | .add _ _ _ :: t => next :: addedIdsAux t (next + 1)
  | .del _ :: t => addedIdsAux t next

/-- Internal coherence of a FAQ store: order and entry hash list exactly
the same identifiers, order has no duplicates, stored items carry their own
key as id, and every live or listed identifier is below the fresh counter. -/
def FAQInv (s : FAQStore) : Prop :=
  (∀ id, id ∈ s.order ↔ (hget s.items id).isSome) ∧
  s.order.Nodup ∧
  (∀ id, (hget s.items id).isSome → id < s.nextId) ∧
  (∀ id it, hget s.items id = some it → it.id = id)

theorem lrem_eq_filter (l : List Nat) (d : Nat) :
    lrem l d = l.filter (fun x => x != d) := by
  induction l with
  | nil => rfl
  | cons y t ih =>
    by_cases hy : y = d
    · subst hy
      simp [lrem, ih]
    · simp [lrem, hy, ih]

theorem lrem_mem (l : List Nat) (d x : Nat) :
    x ∈ lrem l d ↔ x ∈ l ∧ x ≠ d := by
  simp [lrem_eq_filter, List.mem_filter]

theorem lrem_sublist (l : List Nat) (d : Nat) : (lrem l d).Sublist l := by
  rw [lrem_eq_filter]
  exact List.filter_sublist l

theorem lrem_of_not_mem (l : List Nat) (d : Nat) (hd : d ∉ l) : lrem l d = l := by
  rw [lrem_eq_filter]
  apply List.filter_eq_self.mpr
  intro a ha
  simp only [bne_iff_ne, ne_eq]
  intro had
  exact hd (had ▸ ha)

theorem FAQInv_empty : FAQInv emptyFAQStore := by
  refine ⟨?_, ?_, ?_, ?_⟩ <;> simp [emptyFAQStore, hget]

theorem FAQInv_step (s : FAQStore) (op : FAQOp) (h : FAQInv s) :
    FAQInv (runFAQOp s op) := by
  obtain ⟨hmem, hnodup, hlt, hid⟩ := h
  cases op with
  | add title text attachments =>
    refine ⟨?_, ?_, ?_, ?_⟩
    · intro id
      by_cases hn : id = s.nextId
      · subst hn
        simp [runFAQOp, add_item, hget_hset_self]
      · simp only [runFAQOp, add_item, List.mem_append, List.mem_singleton,
          hget_hset_ne s.items s.nextId id _ (fun he => hn he.symm)]
        rw [hmem id]
        simp [hn]
    · have hfresh : s.nextId ∉ s.order := by
        intro hin
        have := hlt s.nextId ((hmem s.nextId).mp hin)
        omega
      simp only [runFAQOp, add_item]
      rw [List.nodup_append]
      refine ⟨hnodup, List.nodup_singleton _, ?_⟩
      intro a ha hb
      simp only [List.mem_singleton] at hb
      subst hb
      exact hfresh ha
    · intro id hsome
      by_cases hn : id = s.nextId
      · subst hn
        simp [runFAQOp, add_item]
      · simp only [runFAQOp, add_item,
          hget_hset_ne s.items s.nextId id _ (fun he => hn he.symm)] at hsome
        have := hlt id hsome
        simp only [runFAQOp, add_item]
        omega
    · intro id it hit
      by_cases hn : id = s.nextId
      · subst hn
        simp only [runFAQOp, add_item, hget_hset_self] at hit
        cases hit
        rfl
      · simp only [runFAQOp, add_item,
          hget_hset_ne s.items s.nextId id _ (fun he => hn he.symm)] at hit
        exact hid id it hit
  | del d =>
    refine ⟨?_, ?_, ?_, ?_⟩
    · intro id
      by_cases hn : id = d
      · subst hn
        simp [runFAQOp, delete_item, lrem_mem, hget_hdel_self]
      · simp only [runFAQOp, delete_item, lrem_mem,
          hget_hdel_ne s.items d id (fun he => hn he.symm)]
        rw [hmem id]
        simp [hn]
    · exact (lrem_sublist s.order d).nodup hnodup
    · intro id hsome
      by_cases hn : id = d
      · subst hn
        simp [runFAQOp, delete_item, hget_hdel_self] at hsome
      · simp only [runFAQOp, delete_item,
          hget_hdel_ne s.items d id (fun he => hn he.symm)] at hsome
        exact hlt id hsome
    · intro id it hit
      by_cases hn : id = d
      · subst hn
        simp [runFAQOp, delete_item, hget_hdel_self] at hit
      · simp only [runFAQOp, delete_item,
          hget_hdel_ne s.items d id (fun he => hn he.symm)] at hit
        exact hid id it hit

theorem FAQInv_fold (ops : List FAQOp) (s : FAQStore) (h : FAQInv s) :
    FAQInv (ops.foldl runFAQOp s) := by
  induction ops generalizing s with
  | nil => exact h
  | cons op t ih => exact ih (runFAQOp s op) (FAQInv_step s op h)

theorem faq_dead_stays_dead (ops : List FAQOp) (s : FAQStore) (d : Nat)
    (hne : d < s.nextId) (hdead : hget s.items d = none) :
    hget (ops.foldl runFAQOp s).items d = none ∧
      d < (ops.foldl runFAQOp s).nextId := by
  induction ops generalizing s with
  | nil => exact ⟨hdead, hne⟩
  | cons op t ih =>
    cases op with
    | add title text attachments =>
      refine ih (runFAQOp s (.add title text attachments)) ?_ ?_
      · simp only [runFAQOp, add_item]
        omega
      · simp only [runFAQOp, add_item]
        rw [hget_hset_ne s.items s.nextId d _ (by omega)]
        exact hdead
    | del e =>
      refine ih (runFAQOp s (.del e)) hne ?_
      by_cases hd : e = d
      · subst hd
        exact hget_hdel_self s.items e
      · simp only [runFAQOp, delete_item]
        rw [hget_hdel_ne s.items e d hd]
        exact hdead

theorem filter_filter_ne (l : List Nat) (p : Nat → Bool) (d : Nat)
    (hd : p d = false) :
    (l.filter (fun x => x != d)).filter p = l.filter p := by
  induction l with
  | nil => rfl
  | cons y t ih =>
    by_cases hy : y = d
    · subst hy
      simp [List.filter_cons, hd, ih]
    · simp [List.filter_cons, hy, ih]

theorem filter_lrem (l : List Nat) (p : Nat → Bool) (d : Nat)
    (hd : p d = false) : (lrem l d).filter p = l.filter p := by
  rw [lrem_eq_filter]
  exact filter_filter_ne l p d hd

theorem faq_order_char (ops : List FAQOp) (s : FAQStore) (hinv : FAQInv s) :
    (ops.foldl runFAQOp s).order =
      (s.order ++ addedIdsAux ops s.nextId).filter
        (fun id => (hget (ops.foldl runFAQOp s).items id).isSome) := by
  induction ops generalizing s with
  | nil =>
    simp only [List.foldl_nil, addedIdsAux, List.append_nil]
    symm
    apply List.filter_eq_self.mpr
    intro a ha
    exact (hinv.1 a).mp ha
  | cons op t ih =>
    cases op with
    | add title text attachments =>
      have h₁ := ih (runFAQOp s (.add title text attachments))
        (FAQInv_step s (.add title text attachments) hinv)
      simp only [List.foldl_cons] at *
      rw [h₁]
      simp only [runFAQOp, add_item, addedIdsAux]
      rw [List.append_assoc, List.singleton_append]
    | del d =>
      have hinv₂ := FAQInv_step s (.del d) hinv
      have h₁ := ih (runFAQOp s (.del d)) hinv₂
      simp only [List.foldl_cons] at *
      rw [h₁]
      simp only [runFAQOp, delete_item, addedIdsAux]
      by_cases hd : d ∈ s.order
      · have hlt : d < s.nextId := hinv.2.2.1 d ((hinv.1 d).mp hd)
        have hdead : hget (hdel s.items d) d = none := hget_hdel_self s.items d
        have hfinal := faq_dead_stays_dead t (runFAQOp s (.del d)) d
          (by simpa [runFAQOp, delete_item] using hlt)
          (by simpa [runFAQOp, delete_item] using hdead)
        have hpd : (fun id =>
            (hget (List.foldl runFAQOp (runFAQOp s (.del d)) t).items id).isSome) d
              = false := by
          simp [hfinal.1]
        simp only [runFAQOp, delete_item] at hpd
        rw [List.filter_append, List.filter_append,
          filter_lrem s.order _ d hpd]
      · rw [lrem_of_not_mem s.order d hd]

theorem list_items_map_id (s : FAQStore) (l : List Nat)
    (h : ∀ id ∈ l, ∃ it, hget s.items id = some it ∧ it.id = id) :
    (l.filterMap (fun id => get_item s id)).map (fun it => it.id) = l := by
  induction l with
  | nil => rfl
  | cons id t ih =>
    obtain ⟨it, hit, hid⟩ := h id (List.mem_cons_self id t)
    simp only [get_item] at ih ⊢
    rw [List.filterMap_cons]
    simp only [hit]
    rw [List.map_cons, hid, ih (fun x hx => h x (List.mem_cons_of_mem id hx))]

/-- C6: running any sequence of add and delete operations from the empty
FAQ store leaves the order list and the entry hash naming exactly the same
identifiers (no dangling id in either), the order list is exactly the
sequence of assigned identifiers in insertion order restricted to the
surviving ones, and list_items reproduces that order. -/
theorem C6_faq_store_consistency :
    ∀ ops : List FAQOp,
      (∀ id, id ∈ (runFAQOps ops).order ↔
        ∃ it, hget (runFAQOps ops).items id = some it) ∧
      (runFAQOps ops).order = (addedIdsAux ops 0).filter
        (fun id => (hget (runFAQOps ops).items id).isSome) ∧
      (list_items (runFAQOps ops)).map (fun it => it.id) = (runFAQOps ops).order := by
  intro ops
  have hinv : FAQInv (runFAQOps ops) := FAQInv_fold ops emptyFAQStore FAQInv_empty
  refine ⟨?_, ?_, ?_⟩
  · intro id
    rw [hinv.1 id, Option.isSome_iff_exists]
  · have h := faq_order_char ops emptyFAQStore FAQInv_empty
    simpa [runFAQOps, emptyFAQStore] using h
  · apply list_items_map_id
    intro id hid
    obtain ⟨it, hit⟩ := Option.isSome_iff_exists.mp ((hinv.1 id).mp hid)
    exact ⟨it, hit, hinv.2.2.2 id it hit⟩

/-! ## User records (app/bot/utils/redis/models.py) -/

/-- Python JSON-able scalar values appearing in a serialized UserData. -/
inductive PyVal where
  | vInt (n : Int)
  | vStr (s : String)
  | vBool (b : Bool)
  | vNone
deriving DecidableEq

/-- Python dict from field name to value, in insertion order. -/
abbrev PyDict := List (String × PyVal)

/-- Embedding of dataclass UserData from app/bot/utils/redis/models.py. -/
structure UserData where
  message_thread_id : Option Int
  message_silent_id : Option Int
  message_silent_mode : Bool
  id : Int
  full_name : String
  username : Option String
  state : String
  is_banned : Bool
  language_code : Option String
  ticket_status : String
  awaiting_reply : Bool
  last_user_message_at : Option String
  created_at : String
  panel_message_id : Option Int
  operator_replied : Bool
deriving DecidableEq

/-- Conversion of an optional int field to its JSON value. -/
def pyOptInt : Option Int → PyVal
  | none => .vNone
  | some n => .vInt n

/-- Conversion of an optional str field to its JSON value. -/
def pyOptStr : Option String → PyVal
  | none => .vNone
  | some s => .vStr s

/-- Embedding of UserData.to_dict: asdict lists every dataclass field in
declaration order. -/
def UserData.to_dict (u : UserData) : PyDict :=
  [("message_thread_id", pyOptInt u.message_thread_id),
   ("message_silent_id", pyOptInt u.message_silent_id),
   ("message_silent_mode", .vBool u.message_silent_mode),
   ("id", .vInt u.id),
   ("full_name", .vStr u.full_name),
   ("username", pyOptStr u.username),
   ("state", .vStr u.state),
   ("is_banned", .vBool u.is_banned),
   ("language_code", pyOptStr u.language_code),
   ("ticket_status", .vStr u.ticket_status),
   ("awaiting_reply", .vBool u.awaiting_reply),
   ("last_user_message_at", pyOptStr u.last_user_message_at),
   ("created_at", .vStr u.created_at),
   ("panel_message_id", pyOptInt u.panel_message_id),
   ("operator_replied", .vBool u.operator_replied)]

/-- Python dict merge left-to-right, the expression with current spread
first and data spread second in update_user: keys of current keep their
position with the value taken from new when present there, then the keys
only in new are appended in their order. -/
def mergeDicts (current new : PyDict) : PyDict :=
  current.map (fun kv => (kv.1, (hget new kv.1).getD kv.2)) ++
    new.filter (fun kv => (hget current kv.1).isNone)

/-- Python default field values of a dataclass are evaluated once, when
the class body itself runs.  The created_at default of UserData is
therefore the formatted clock reading taken at class-definition time, not
at record-construction time; this definition fixes that evaluation moment. -/
def userDataCreatedAtDefault (classLoadTime : Nat) (fmt : Nat → String) : String :=
  fmt classLoadTime

/-- Construction of a UserData with every defaulted field left at its
default, at some construction time.  The construction time is a real
argument of the model, but the Python semantics gives it no influence on
the defaulted created_at field. -/
def mkUserDataDefault (classLoadTime : Nat) (fmt : Nat → String)
    (constructionTime : Nat) (message_thread_id message_silent_id : Option Int)
    (message_silent_mode : Bool) (id : Int) (full_name : String)
    (username : Option String) : UserData :=
  { message_thread_id := message_thread_id
    message_silent_id := message_silent_id
    message_silent_mode := message_silent_mode
    id := id
    full_name := full_name
    username := username
    state := "member"
    is_banned := false
    language_code := none
    ticket_status := "open"
    awaiting_reply := false
    last_user_message_at := none
    created_at := userDataCreatedAtDefault classLoadTime fmt
    panel_message_id := none
    operator_replied := false }

/-! ## User record store (app/bot/utils/redis/redis.py)

The redis hash "users" maps str(id) to the JSON record; the model keys it
by the numeric id and holds the decoded dict directly.  Optimistic
concurrency of update_user is driven by an interference schedule: entry i
of the schedule is the store content left behind by the conflicting
concurrent writer that makes attempt i fail its EXEC; when the schedule is
exhausted the next attempt commits.  The thread-id reverse index lives
under separate redis keys and is outside this model. -/

/-- Content of the redis hash "users". -/
abbrev UserStore := List (Int × PyDict)

/-- Attempt loop of RedisStorage.update_user with the given fuel: each
interference entry makes one WATCH round fail and replaces the store; a
round with no interference left reads the current record (an absent or
unparsable record reads as the empty dict), merges the caller fields over
it and commits; exhausted fuel falls back to an unconditional HSET of the
caller snapshot. -/
def update_user_attempts (fuel : Nat) (id : Int) (d : PyDict) (σ : UserStore)
    (env : List UserStore) : UserStore :=
  match fuel, env with
  | 0, _ => hset σ id d
  | _ + 1, [] => hset σ id (mergeDicts ((hget σ id).getD []) d)
  | fuel + 1, σ₂ :: rest => update_user_attempts fuel id d σ₂ rest

/-- Embedding of RedisStorage.update_user: a client without watch and
multi_exec takes the plain HSET fallback; a capable client runs the
optimistic loop with max_retries = 5. -/
def update_user (supportsWatch : Bool) (σ : UserStore) (id : Int)
    (data : UserData) (env : List UserStore) : UserStore :=
  if supportsWatch then update_user_attempts 5 id data.to_dict σ env
  else hset σ id data.to_dict

theorem hget_append {κ α : Type} [DecidableEq κ] (l₁ l₂ : List (κ × α)) (k : κ) :
    hget (l₁ ++ l₂) k =
      if (hget l₁ k).isSome then hget l₁ k else hget l₂ k := by
  induction l₁ with
  | nil => simp [hget]
  | cons kv t ih =>
    by_cases hk : kv.1 = k
    · simp [hget, hk]
    · simp [hget, hk, ih]

theorem hget_map_value {κ α : Type} [DecidableEq κ] (l : List (κ × α))
    (F : κ → α → α) (k : κ) :
    hget (l.map (fun kv => (kv.1, F kv.1 kv.2))) k = (hget l k).map (F k) := by
  induction l with
  | nil => simp [hget]
  | cons kv t ih =>
    by_cases hk : kv.1 = k
    · subst hk
      simp [hget]
    · simp [hget, hk, ih]

theorem hget_filter_key {κ α : Type} [DecidableEq κ] (l : List (κ × α))
    (pred : κ → Bool) (k : κ) :
    hget (l.filter (fun kv => pred kv.1)) k =
      if pred k then hget l k else none := by
  induction l with
  | nil => simp [hget]
  | cons kv t ih =>
    by_cases hp : pred kv.1
    · by_cases hk : kv.1 = k
      · subst hk
        simp [List.filter_cons, hp, hget]
      · simp [List.filter_cons, hp, hget, hk, ih]
    · by_cases hk : kv.1 = k
      · subst hk
        simp only [Bool.not_eq_true] at hp
        simp [List.filter_cons, hp, hget, ih]
      · simp only [Bool.not_eq_true] at hp
        simp [List.filter_cons, hp, hget, hk, ih]

theorem merge_lookup (current new : PyDict) (k : String) :
    hget (mergeDicts current new) k =
      if (hget new k).isSome then hget new k else hget current k := by
  have h₁ := hget_append (current.map
      (fun kv => (kv.1, (hget new kv.1).getD kv.2)))
    (new.filter (fun kv => (hget current kv.1).isNone)) k
  have h₂ := hget_map_value current (fun k₁ v₁ => (hget new k₁).getD v₁) k
  have h₃ := hget_filter_key new (fun k₁ => (hget current k₁).isNone) k
  simp only [mergeDicts]
  rw [h₁, h₂, h₃]
  cases hc : hget current k with
  | none =>
    cases hn : hget new k with
    | none => simp
    | some w => simp
  | some v =>
    cases hn : hget new k with
    | none => simp
    | some w => simp

theorem update_user_attempts_conflicts_lt (fuel : Nat) (id : Int) (d : PyDict)
    (σ : UserStore) (env : List UserStore) (h : env.length < fuel) :
    update_user_attempts fuel id d σ env =
      hset (env.getLastD σ) id
        (mergeDicts ((hget (env.getLastD σ) id).getD []) d) := by
  induction env generalizing fuel σ with
  | nil =>
    cases fuel with
    | zero => simp at h
    | succ n => simp [update_user_attempts, List.getLastD]
  | cons e rest ih =>
    cases fuel with
    | zero => simp at h
    | succ n =>
      have h₂ : rest.length < n := by
        simpa using h
      rw [show update_user_attempts (n + 1) id d σ (e :: rest) =
        update_user_attempts n id d e rest from rfl]
      rw [ih n e h₂, List.getLastD_cons]

theorem update_user_attempts_conflicts_ge (fuel : Nat) (id : Int) (d : PyDict)
    (σ : UserStore) (env : List UserStore) (h : fuel ≤ env.length) :
    update_user_attempts fuel id d σ env =
      hset ((env.take fuel).getLastD σ) id d := by
  induction env generalizing fuel σ with
  | nil =>
    cases fuel with
    | zero => simp [update_user_attempts, List.getLastD]
    | succ n => simp at h
  | cons e rest ih =>
    cases fuel with
    | zero => simp [update_user_attempts, List.getLastD]
    | succ n =>
      have h₂ : n ≤ rest.length := by
        simpa using h
      rw [show update_user_attempts (n + 1) id d σ (e :: rest) =
        update_user_attempts n id d e rest from rfl]
      rw [ih n e h₂]
      rw [show (e :: rest).take (n + 1) = e :: rest.take n from rfl,
        List.getLastD_cons]

/-- C1: under a capable client, update_user with fewer than 5 conflicting
concurrent writes commits a read-merge-write against the store state left
by the last conflicting writer (the fresh read of the retry), where the
merge resolves every field present in the caller record from the caller
record and keeps other stored fields; with 5 or more conflicts every
optimistic attempt fails and the fallback unconditionally overwrites the
record with the caller snapshot. -/
theorem C1_update_user_read_merge_write :
    ∀ (σ : UserStore) (id : Int) (data : UserData) (env : List UserStore),
      (env.length < 5 →
        update_user true σ id data env =
          hset (env.getLastD σ) id
            (mergeDicts ((hget (env.getLastD σ) id).getD []) data.to_dict)) ∧
      (5 ≤ env.length →
        update_user true σ id data env =
          hset ((env.take 5).getLastD σ) id data.to_dict) ∧
      (∀ (c n : PyDict) (k : String),
        hget (mergeDicts c n) k =
          if (hget n k).isSome then hget n k else hget c k) := by
  intro σ id data env
  refine ⟨?_, ?_, ?_⟩
  · intro h
    show update_user_attempts 5 id data.to_dict σ env = _
    exact update_user_attempts_conflicts_lt 5 id data.to_dict σ env h
  · intro h
    show update_user_attempts 5 id data.to_dict σ env = _
    exact update_user_attempts_conflicts_ge 5 id data.to_dict σ env h
  · exact merge_lookup

/-- Sample record used to instantiate the user-store theorems. -/
def sampleUserData : UserData :=
  { message_thread_id := none
    message_silent_id := none
    message_silent_mode := false
    id := 1
    full_name := "Alice"
    username := some "@alice"
    state := "member"
    is_banned := false
    language_code := some "en"
    ticket_status := "open"
    awaiting_reply := false
    last_user_message_at := none
    created_at := "2024-01-01 00:00:00 UTC+03:00"
    panel_message_id := none
    operator_replied := false }

/-- Witness for C1 at concrete inputs: an empty interference schedule
commits the merge, a schedule of five conflicts triggers the overwrite
fallback. -/
theorem C1_update_user_read_merge_write_witness :
    update_user true [] 1 sampleUserData [] =
      hset [] 1 (mergeDicts [] sampleUserData.to_dict) ∧
    update_user true [] 1 sampleUserData [[], [], [], [], []] =
      hset [] 1 sampleUserData.to_dict := by
  constructor
  · have h := (C1_update_user_read_merge_write [] 1 sampleUserData []).1
      (by decide)
    simpa [hget] using h
  · have h :=
      (C1_update_user_read_merge_write [] 1 sampleUserData [[], [], [], [], []]).2.1
      (by decide)
    simpa using h

/-- Record written by the first concurrent updater: it only changes the
is_banned field of the sample record. -/
def userUpdateA : UserData := { sampleUserData with is_banned := true }

/-- Record written by the second concurrent updater: it only changes the
ticket_status field of the sample record. -/
def userUpdateB : UserData := { sampleUserData with ticket_status := "resolved" }

/-- C2 evaluated at the failing input: updater A commits is_banned = true
without conflict; updater B, whose snapshot touches only ticket_status,
conflicts once against the store A left and retries within the bound; the
retry merges the full B snapshot (to_dict emits every field) over the
current record, so the final record carries ticket_status = resolved but
has is_banned back at false — the A field is lost even though the two
updates touched disjoint fields. -/
theorem C2_concurrent_disjoint_updates_lose_field :
    (hget (update_user true (hset [] 1 sampleUserData.to_dict) 1 userUpdateA []) 1).bind
        (fun d => hget d "is_banned") = some (.vBool true) ∧
    (hget (update_user true (hset [] 1 sampleUserData.to_dict) 1 userUpdateB
        [update_user true (hset [] 1 sampleUserData.to_dict) 1 userUpdateA []]) 1).bind
        (fun d => hget d "ticket_status") = some (.vStr "resolved") ∧
    (hget (update_user true (hset [] 1 sampleUserData.to_dict) 1 userUpdateB
        [update_user true (hset [] 1 sampleUserData.to_dict) 1 userUpdateA []]) 1).bind
        (fun d => hget d "is_banned") = some (.vBool false) := by
  decide

/-- C10: two UserData records built in the same process run (same class
load, hence same evaluation of the created_at default) carry the identical
created_at string, the formatted class-load time, whatever their distinct
construction times and other constructor arguments are. -/
theorem C10_created_at_fixed_at_class_definition :
    ∀ (classLoadTime : Nat) (fmt : Nat → String) (t₁ t₂ : Nat)
      (mt₁ ms₁ mt₂ ms₂ : Option Int) (sm₁ sm₂ : Bool) (id₁ id₂ : Int)
      (n₁ n₂ : String) (u₁ u₂ : Option String),
      (mkUserDataDefault classLoadTime fmt t₁ mt₁ ms₁ sm₁ id₁ n₁ u₁).created_at =
        (mkUserDataDefault classLoadTime fmt t₂ mt₂ ms₂ sm₂ id₂ n₂ u₂).created_at ∧
      (mkUserDataDefault classLoadTime fmt t₁ mt₁ ms₁ sm₁ id₁ n₁ u₁).created_at =
        fmt classLoadTime := by
  intro classLoadTime fmt t₁ t₂ mt₁ ms₁ mt₂ ms₂ sm₁ sm₂ id₁ id₂ n₁ n₂ u₁ u₂
  exact ⟨rfl, rfl⟩

/-! ## Thread recreation on send
(app/bot/handlers/private/my_chat_member.py, lines 53-73) -/

/-- Substring containment of the pattern in the string, the Python
expression pattern in text. -/
def strContainsSub (s pat : String) : Bool := decide (pat.toList <:+: s.toList)

/-- Character list of the string lowered characterwise, the Python
expression text.lower() restricted to what the handler compares. -/
def lowerChars (s : String) : List Char := s.toList.map Char.toLower

/-- Classification used by handle_chat_member_update: the condition
"message thread not found" in ex.message.lower(). -/
def isThreadNotFound (msg : String) : Bool :=
  decide ("message thread not found".toList <:+: lowerChars msg)

/-- Observable outcome of the guarded send of handle_chat_member_update:
the propagated transport error if any, how many forum topics were created
inside the recovery path, the thread id held at the end, every thread id
persisted through redis.update_user during recovery, and how many send
attempts were made. -/
structure ThreadSendResult where
  result : Option String
  recreated : Nat
  finalThreadId : Int
  persistedThreadIds : List Int
  sends : Nat
deriving DecidableEq

/-- Embedding of the try/except block of handle_chat_member_update: send
to the stored thread; a TelegramBadRequest whose message is not classified
as thread-not-found is re-raised unchanged; a thread-not-found failure
creates one new forum topic, persists it via redis.update_user, and
repeats the send exactly once, with that second outcome propagated as is.
The transport is the map send from thread id to the error raised by
bot.send_message there, none meaning delivered. -/
def thread_send_with_recovery (tid : Int) (send : Int → Option String)
    (newTopicId : Int) : ThreadSendResult :=
  match send tid with
  | none => ⟨none, 0, tid, [], 1⟩
  | some msg =>
    if isThreadNotFound msg = false then ⟨some msg, 0, tid, [], 1⟩
    else
      match send newTopicId with
      | none => ⟨none, 1, newTopicId, [newTopicId], 2⟩
      | some msg₂ => ⟨some msg₂, 1, newTopicId, [newTopicId], 2⟩

/-- C3: a clean first send neither recreates nor persists anything; a
send failure not classified as thread-not-found is propagated unchanged
with no recreate attempt; a thread-not-found failure recreates exactly one
thread, persists exactly the new thread id, performs exactly one retry of
the send, and propagates a failure to the caller exactly when that single
retry fails. -/
theorem C3_thread_recreate_once :
    ∀ (tid : Int) (send : Int → Option String) (newTopicId : Int),
      (send tid = none →
        thread_send_with_recovery tid send newTopicId = ⟨none, 0, tid, [], 1⟩) ∧
      (∀ msg, send tid = some msg → isThreadNotFound msg = false →
        thread_send_with_recovery tid send newTopicId =
          ⟨some msg, 0, tid, [], 1⟩) ∧
      (∀ msg, send tid = some msg → isThreadNotFound msg = true →
        (thread_send_with_recovery tid send newTopicId).recreated = 1 ∧
        (thread_send_with_recovery tid send newTopicId).persistedThreadIds =
          [newTopicId] ∧
        (thread_send_with_recovery tid send newTopicId).sends = 2 ∧
        (thread_send_with_recovery tid send newTopicId).result = send newTopicId) := by
  intro tid send newTopicId
  refine ⟨?_, ?_, ?_⟩
  · intro h
    simp [thread_send_with_recovery, h]
  · intro msg h hmsg
    simp [thread_send_with_recovery, h, hmsg]
  · intro msg h hmsg
    cases h₂ : send newTopicId with
    | none => simp [thread_send_with_recovery, h, hmsg, h₂]
    | some msg₂ => simp [thread_send_with_recovery, h, hmsg, h₂]

/-- Witness for C3 at a concrete transport: thread 7 is gone with a
thread-not-found report and the recreated thread 9 accepts the retry. -/
theorem C3_thread_recreate_once_witness :
    (thread_send_with_recovery 7
      (fun i => if i = 7 then some "Bad Request: message thread not found" else none)
      9).recreated = 1 ∧
    (thread_send_with_recovery 7
      (fun i => if i = 7 then some "Bad Request: message thread not found" else none)
      9).result = none := by
  have h := (C3_thread_recreate_once 7
    (fun i => if i = 7 then some "Bad Request: message thread not found" else none)
    9).2.2 "Bad Request: message thread not found" (by decide) (by decide)
  refine ⟨h.1, ?_⟩
  rw [h.2.2.2]
  decide

/-! ## Presentation manager (app/bot/manager.py)

The user chat is a world of live messages keyed by message id; the bot
API calls edit_message_text, delete_message and send_message act on it.
Transport faults are injected per call: a some fault makes the call raise
TelegramBadRequest with that message text, a none fault gives the calls
their deterministic semantics (editing a missing message or to unchanged
text fails with the corresponding Bad Request text, deleting a missing
message fails with message to delete not found, sending always succeeds
with a fresh id). -/

/-- List MESSAGE_EDIT_ERRORS from app/bot/manager.py. -/
def MESSAGE_EDIT_ERRORS : List String :=
  ["message can\x27t be edited", "message is not modified",
   "message to edit not found"]

/-- List MESSAGE_DELETE_ERRORS from app/bot/manager.py. -/
def MESSAGE_DELETE_ERRORS : List String :=
  ["message can\x27t be deleted", "message to delete not found"]

/-- Classification any(e in ex.message for e in errs) of the manager. -/
def matchesAnyErr (errs : List String) (msg : String) : Bool :=
  errs.any (fun e => strContainsSub msg e)

/-- State of the private chat between the bot and the user: live messages
with their current text, and the id the transport will give the next sent
message. -/
structure TgWorld where
  messages : List (Nat × String)
  nextId : Nat
deriving DecidableEq

/-- Sanity of a chat world: every live message id was handed out earlier
than the next fresh id. -/
def TgWorld.wf (w : TgWorld) : Prop := ∀ p ∈ w.messages, p.1 < w.nextId

/-- Bot call edit_message_text on the world, with an injected fault. -/
def edit_message_text (w : TgWorld) (fault : Option String) (mid : Nat)
    (text : String) : Except String TgWorld :=
  match fault with
  | some m => .error m
  | none =>
    match hget w.messages mid with
    | none => .error "message to edit not found"
    | some old =>
      if old = text then .error "message is not modified"
      else .ok { w with messages := hset w.messages mid text }

/-- Bot call delete_message on the world, with an injected fault. -/
def delete_message_api (w : TgWorld) (fault : Option String) (mid : Nat) :
    Except String TgWorld :=
  match fault with
  | some m => .error m
  | none =>
    match hget w.messages mid with
    | none => .error "message to delete not found"
    | some _ => .ok { w with messages := hdel w.messages mid }

/-- Bot call send_message on the world: appends a fresh message carrying
the text and returns its id. -/
def send_message_api (w : TgWorld) (text : String) : TgWorld × Nat :=
  ({ messages := w.messages ++ [(w.nextId, text)], nextId := w.nextId + 1 },
   w.nextId)

/-- Embedding of Manager.delete_previous_message: without a stored id it
does nothing; a successful delete returns; a delete failure classified by
MESSAGE_DELETE_ERRORS falls back to editing the message to the placeholder
emoji, re-raising only an edit failure not classified by
MESSAGE_EDIT_ERRORS; a delete failure outside MESSAGE_DELETE_ERRORS falls
out of the except block, so it is swallowed. -/
def delete_previous_message (w : TgWorld) (emoji : String) (tracked : Option Nat)
    (deleteFault editFault : Option String) : Except String TgWorld :=
  match tracked with
  | none => .ok w
  | some mid =>
    match delete_message_api w deleteFault mid with
    | .ok w₂ => .ok w₂
    | .error msg =>
      if matchesAnyErr MESSAGE_DELETE_ERRORS msg then
        match edit_message_text w editFault mid emoji with
        | .ok w₂ => .ok w₂
        | .error msg₂ =>
          if matchesAnyErr MESSAGE_EDIT_ERRORS msg₂ then .ok w
          else .error msg₂
      else .ok w

/-- Embedding of Manager.send_message: with replace_previous false and a
tracked previous id, edit in place first, re-raise an edit failure not in
MESSAGE_EDIT_ERRORS, and on a classified one delete the previous message
and send anew; with replace_previous true, delete the previous message and
send anew; with no previous id and replace_previous false, send directly.
Returns the world together with the id stored back into the FSM state. -/
def manager_send_message (w : TgWorld) (emoji text : String)
    (tracked : Option Nat) (replacePrevious : Bool)
    (editFault deleteFault delEditFault : Option String) :
    Except String (TgWorld × Nat) :=
  match replacePrevious, tracked with
  | false, some mid =>
    (match edit_message_text w editFault mid text with
     | .ok w₂ => .ok (w₂, mid)
     | .error msg =>
       if matchesAnyErr MESSAGE_EDIT_ERRORS msg = false then .error msg
       else
         match delete_previous_message w emoji (some mid) deleteFault delEditFault with
         | .error m => .error m
         | .ok w₂ => .ok (send_message_api w₂ text))
  | rp, prev =>
    (match (if rp then delete_previous_message w emoji prev deleteFault delEditFault
            else .ok w) with
     | .error m => .error m
     | .ok w₂ => .ok (send_message_api w₂ text))

theorem hget_mem {κ α : Type} [DecidableEq κ] (h : List (κ × α)) (k : κ) (v : α)
    (hv : hget h k = some v) : (k, v) ∈ h := by
  induction h with
  | nil => simp [hget] at hv
  | cons p t ih =>
    by_cases hk : p.1 = k
    · simp only [hget, if_pos hk, Option.some.injEq] at hv
      subst hv
      rw [← hk]
      exact List.mem_cons_self p t
    · simp only [hget, if_neg hk] at hv
      exact List.mem_cons_of_mem p (ih hv)

theorem mem_hset {κ α : Type} [DecidableEq κ] (h : List (κ × α)) (k : κ) (v : α)
    (p : κ × α) (hp : p ∈ hset h k v) : p = (k, v) ∨ p ∈ h := by
  induction h with
  | nil =>
    simp [hset] at hp
    exact Or.inl hp
  | cons q t ih =>
    by_cases hk : q.1 = k
    · simp only [hset, if_pos hk, List.mem_cons] at hp
      rcases hp with hp | hp
      · exact Or.inl hp
      · exact Or.inr (List.mem_cons_of_mem q hp)
    · simp only [hset, if_neg hk, List.mem_cons] at hp
      rcases hp with hp | hp
      · exact Or.inr (hp ▸ List.mem_cons_self q t)
      · rcases ih hp with hp₂ | hp₂
        · exact Or.inl hp₂
        · exact Or.inr (List.mem_cons_of_mem q hp₂)

theorem mem_hdel {κ α : Type} [DecidableEq κ] (h : List (κ × α)) (k : κ)
    (p : κ × α) (hp : p ∈ hdel h k) : p ∈ h := by
  induction h with
  | nil => simp [hdel] at hp
  | cons q t ih =>
    by_cases hk : q.1 = k
    · simp only [hdel, if_pos hk] at hp
      exact List.mem_cons_of_mem q (ih hp)
    · simp only [hdel, if_neg hk, List.mem_cons] at hp
      rcases hp with hp | hp
      · exact hp ▸ List.mem_cons_self q t
      · exact List.mem_cons_of_mem q (ih hp)

theorem TgWorld.wf_hget_next (w : TgWorld) (hwf : w.wf) :
    hget w.messages w.nextId = none := by
  cases hv : hget w.messages w.nextId with
  | none => rfl
  | some v =>
    have := hwf (w.nextId, v) (hget_mem w.messages w.nextId v hv)
    simp at this

theorem edit_ok_shape (w : TgWorld) (fault : Option String) (mid : Nat)
    (text : String) (w₂ : TgWorld)
    (h : edit_message_text w fault mid text = .ok w₂) :
    w₂ = { w with messages := hset w.messages mid text } ∧
      (hget w.messages mid).isSome := by
  cases fault with
  | some m => simp [edit_message_text] at h
  | none =>
    cases hm : hget w.messages mid with
    | none => simp [edit_message_text, hm] at h
    | some old =>
      by_cases he : old = text
      · simp [edit_message_text, hm, he] at h
      · simp only [edit_message_text, hm] at h
        rw [if_neg he] at h
        simp only [Except.ok.injEq] at h
        exact ⟨h.symm, by simp [hm]⟩

theorem delete_ok_shape (w : TgWorld) (fault : Option String) (mid : Nat)
    (w₂ : TgWorld) (h : delete_message_api w fault mid = .ok w₂) :
    w₂ = { w with messages := hdel w.messages mid } := by
  cases fault with
  | some m => simp [delete_message_api] at h
  | none =>
    cases hm : hget w.messages mid with
    | none => simp [delete_message_api, hm] at h
    | some old =>
      simp only [delete_message_api, hm, Except.ok.injEq] at h
      exact h.symm

theorem wf_edit_ok (w : TgWorld) (fault : Option String) (mid : Nat)
    (text : String) (w₂ : TgWorld) (hwf : w.wf)
    (h : edit_message_text w fault mid text = .ok w₂) : w₂.wf := by
  obtain ⟨hw, hsome⟩ := edit_ok_shape w fault mid text w₂ h
  obtain ⟨old, hold⟩ := Option.isSome_iff_exists.mp hsome
  have hmid : mid < w.nextId := hwf (mid, old) (hget_mem w.messages mid old hold)
  subst hw
  intro p hp
  rcases mem_hset w.messages mid text p hp with hp | hp
  · subst hp
    exact hmid
  · exact hwf p hp

theorem wf_delete_ok (w : TgWorld) (fault : Option String) (mid : Nat)
    (w₂ : TgWorld) (hwf : w.wf)
    (h : delete_message_api w fault mid = .ok w₂) : w₂.wf := by
  have hw := delete_ok_shape w fault mid w₂ h
  subst hw
  intro p hp
  exact hwf p (mem_hdel w.messages mid p hp)

theorem wf_delete_previous (w : TgWorld) (emoji : String) (tracked : Option Nat)
    (deleteFault editFault : Option String) (w₂ : TgWorld) (hwf : w.wf)
    (h : delete_previous_message w emoji tracked deleteFault editFault = .ok w₂) :
    w₂.wf := by
  cases tracked with
  | none =>
    simp only [delete_previous_message, Except.ok.injEq] at h
    exact h ▸ hwf
  | some mid =>
    simp only [delete_previous_message] at h
    cases hd : delete_message_api w deleteFault mid with
    | ok w₃ =>
      rw [hd] at h
      simp only [Except.ok.injEq] at h
      exact h ▸ wf_delete_ok w deleteFault mid w₃ hwf hd
    | error msg =>
      rw [hd] at h
      by_cases hc : matchesAnyErr MESSAGE_DELETE_ERRORS msg = true
      · simp only [hc, if_true] at h
        cases he : edit_message_text w editFault mid emoji with
        | ok w₃ =>
          rw [he] at h
          simp only [Except.ok.injEq] at h
          exact h ▸ wf_edit_ok w editFault mid emoji w₃ hwf he
        | error msg₂ =>
          rw [he] at h
          by_cases hc₂ : matchesAnyErr MESSAGE_EDIT_ERRORS msg₂ = true
          · simp only [hc₂, if_true, Except.ok.injEq] at h
            exact h ▸ hwf
          · simp only [Bool.not_eq_true] at hc₂
            simp [hc₂] at h
      · simp only [Bool.not_eq_true] at hc
        simp only [hc] at h
        simp only [Bool.false_eq_true, if_false, Except.ok.injEq] at h
        exact h ▸ hwf

theorem send_fresh_content (w : TgWorld) (text : String) (hwf : w.wf) :
    hget (send_message_api w text).1.messages (send_message_api w text).2 =
      some text := by
  simp only [send_message_api]
  rw [hget_append]
  rw [TgWorld.wf_hget_next w hwf]
  simp [hget]

/-- C4: with replace_previous false and a tracked previous message, the
manager edits in place first (keeping the tracked id) and falls back to
delete-then-send exactly on an edit failure classified by
MESSAGE_EDIT_ERRORS, re-raising any other edit failure unchanged; with
replace_previous true it always deletes the previous message and sends a
new one; and whenever the call returns successfully, the id stored back in
the FSM state refers to a live message whose text is the requested one. -/
theorem C4_manager_send_contract :
    ∀ (w : TgWorld) (emoji text : String) (mid : Nat)
      (editFault deleteFault delEditFault : Option String),
      (∀ w₂, edit_message_text w editFault mid text = .ok w₂ →
        manager_send_message w emoji text (some mid) false editFault deleteFault
          delEditFault = .ok (w₂, mid)) ∧
      (∀ msg, edit_message_text w editFault mid text = .error msg →
        matchesAnyErr MESSAGE_EDIT_ERRORS msg = false →
        manager_send_message w emoji text (some mid) false editFault deleteFault
          delEditFault = .error msg) ∧
      (∀ msg, edit_message_text w editFault mid text = .error msg →
        matchesAnyErr MESSAGE_EDIT_ERRORS msg = true →
        manager_send_message w emoji text (some mid) false editFault deleteFault
          delEditFault =
          (match delete_previous_message w emoji (some mid) deleteFault
              delEditFault with
           | .error m => .error m
           | .ok w₂ => .ok (send_message_api w₂ text))) ∧
      (∀ tracked : Option Nat,
        manager_send_message w emoji text tracked true editFault deleteFault
          delEditFault =
          (match delete_previous_message w emoji tracked deleteFault
              delEditFault with
           | .error m => .error m
           | .ok w₂ => .ok (send_message_api w₂ text))) ∧
      (∀ (tracked : Option Nat) (rp : Bool) (w₂ : TgWorld) (newId : Nat),
        w.wf →
        manager_send_message w emoji text tracked rp editFault deleteFault
          delEditFault = .ok (w₂, newId) →
        hget w₂.messages newId = some text) := by
  intro w emoji text mid editFault deleteFault delEditFault
  refine ⟨?_, ?_, ?_, ?_, ?_⟩
  · intro w₂ h
    simp [manager_send_message, h]
  · intro msg h hmsg
    simp [manager_send_message, h, hmsg]
  · intro msg h hmsg
    simp [manager_send_message, h, hmsg]
  · intro tracked
    cases tracked with
    | none => rfl
    | some mid₂ => rfl
  · intro tracked rp w₂ newId hwf h
    cases rp with
    | true =>
      have h₂ : (match delete_previous_message w emoji tracked deleteFault
            delEditFault with
          | .error m => (.error m : Except String (TgWorld × Nat))
          | .ok w₃ => .ok (send_message_api w₃ text)) = .ok (w₂, newId) := by
        cases tracked with
        | none => exact h
        | some mid₂ => exact h
      cases hdpm : delete_previous_message w emoji tracked deleteFault
          delEditFault with
      | error m =>
        rw [hdpm] at h₂
        cases h₂
      | ok w₃ =>
        rw [hdpm] at h₂
        simp only [Except.ok.injEq] at h₂
        have hw : w₂ = (send_message_api w₃ text).1 := by
          rw [h₂]
        have hn : newId = (send_message_api w₃ text).2 := by
          rw [h₂]
        rw [hw, hn]
        exact send_fresh_content w₃ text
          (wf_delete_previous w emoji tracked deleteFault delEditFault w₃ hwf hdpm)
    | false =>
      cases tracked with
      | none =>
        have h₂ : (Except.ok (send_message_api w text) :
            Except String (TgWorld × Nat)) = .ok (w₂, newId) := h
        simp only [Except.ok.injEq] at h₂
        have hw : w₂ = (send_message_api w text).1 := by
          rw [h₂]
        have hn : newId = (send_message_api w text).2 := by
          rw [h₂]
        rw [hw, hn]
        exact send_fresh_content w text hwf
      | some mid₂ =>
        simp only [manager_send_message] at h
        cases hedit : edit_message_text w editFault mid₂ text with
        | ok w₃ =>
          rw [hedit] at h
          simp only [Except.ok.injEq, Prod.mk.injEq] at h
          obtain ⟨hw, hn⟩ := h
          obtain ⟨hshape, _⟩ := edit_ok_shape w editFault mid₂ text w₃ hedit
          rw [← hw, ← hn, hshape]
          exact hget_hset_self w.messages mid₂ text
        | error msg =>
          rw [hedit] at h
          by_cases hcl : matchesAnyErr MESSAGE_EDIT_ERRORS msg = true
          · simp only [hcl] at h
            simp only [Bool.true_eq_false, if_false] at h
            cases hdpm : delete_previous_message w emoji (some mid₂) deleteFault
                delEditFault with
            | error m =>
              rw [hdpm] at h
              cases h
            | ok w₃ =>
              rw [hdpm] at h
              simp only [Except.ok.injEq] at h
              have hw : w₂ = (send_message_api w₃ text).1 := by
                rw [h]
              have hn : newId = (send_message_api w₃ text).2 := by
                rw [h]
              rw [hw, hn]
              exact send_fresh_content w₃ text
                (wf_delete_previous w emoji (some mid₂) deleteFault delEditFault
                  w₃ hwf hdpm)
          · simp only [Bool.not_eq_true] at hcl
            simp [hcl] at h

/-- Witness for C4 at a concrete world: with a tracked previous message 1
holding old text, the no-replace call edits it in place and keeps id 1,
and the success leaves the latest text under the tracked id. -/
theorem C4_manager_send_contract_witness :
    manager_send_message ⟨[(1, "old")], 2⟩ "e" "new" (some 1) false none none
      none = .ok (⟨[(1, "new")], 2⟩, 1) ∧
    hget (⟨[(1, "new")], 2⟩ : TgWorld).messages 1 = some "new" := by
  have hc := C4_manager_send_contract ⟨[(1, "old")], 2⟩ "e" "new" 1 none none none
  refine ⟨hc.1 ⟨[(1, "new")], 2⟩ (by rfl), ?_⟩
  exact hc.2.2.2.2 (some 1) false ⟨[(1, "new")], 2⟩ 1
    (by intro p hp; simp only [List.mem_singleton] at hp; subst hp; decide)
    (hc.1 ⟨[(1, "new")], 2⟩ (by rfl))

/-- C5 counterexample: a delete failure whose report (chat not found) is
outside MESSAGE_DELETE_ERRORS is not raised to the caller; the call
returns normally with the world untouched, contradicting the claim that
every delete failure of another kind is surfaced. -/
theorem C5_unclassified_delete_swallowed_counterexample :
    matchesAnyErr MESSAGE_DELETE_ERRORS "chat not found" = false ∧
    delete_previous_message ⟨[(1, "hello")], 2⟩ "e" (some 1)
      (some "chat not found") none = .ok ⟨[(1, "hello")], 2⟩ :=
  ⟨by decide, by rfl⟩

/-- C5 as amended: without a stored id nothing happens; a successful
delete returns its result; a delete failure classified by
MESSAGE_DELETE_ERRORS (already gone) leads to an attempted edit of the
message to the placeholder emoji, where an edit success or an edit failure
classified by MESSAGE_EDIT_ERRORS is swallowed and any other edit failure
is raised; and a delete failure of any other kind is swallowed rather than
raised, the call returning normally with the world untouched. -/
theorem C5_delete_previous_amended :
    ∀ (w : TgWorld) (emoji : String) (mid : Nat)
      (deleteFault editFault : Option String),
      (delete_previous_message w emoji none deleteFault editFault = .ok w) ∧
      (∀ w₂, delete_message_api w deleteFault mid = .ok w₂ →
        delete_previous_message w emoji (some mid) deleteFault editFault =
          .ok w₂) ∧
      (∀ msg, delete_message_api w deleteFault mid = .error msg →
        matchesAnyErr MESSAGE_DELETE_ERRORS msg = true →
        delete_previous_message w emoji (some mid) deleteFault editFault =
          (match edit_message_text w editFault mid emoji with
           | .ok w₂ => .ok w₂
           | .error msg₂ =>
             if matchesAnyErr MESSAGE_EDIT_ERRORS msg₂ then .ok w
             else .error msg₂)) ∧
      (∀ msg, delete_message_api w deleteFault mid = .error msg →
        matchesAnyErr MESSAGE_DELETE_ERRORS msg = false →
        delete_previous_message w emoji (some mid) deleteFault editFault =
          .ok w) := by
  intro w emoji mid deleteFault editFault
  refine ⟨rfl, ?_, ?_, ?_⟩
  · intro w₂ h
    simp [delete_previous_message, h]
  · intro msg h hmsg
    simp [delete_previous_message, h, hmsg]
  · intro msg h hmsg
    simp [delete_previous_message, h, hmsg]

/-- Witness for C5 as amended: an unclassified delete failure at a
concrete world is swallowed and the call returns the world unchanged. -/
theorem C5_delete_previous_amended_witness :
    delete_previous_message ⟨[(2, "hi")], 3⟩ "e" (some 2)
      (some "Bad Request: not enough rights") none = .ok ⟨[(2, "hi")], 3⟩ :=
  (C5_delete_previous_amended ⟨[(2, "hi")], 3⟩ "e" 2
    (some "Bad Request: not enough rights") none).2.2.2
    "Bad Request: not enough rights" (by rfl) (by decide)

/-! ## Security analyzer

The module app/bot/utils/security.py is not present under src; only its
callers and tests are.  The analyzer below is therefore modelled from the
spec, section 4.2. -/

/-- Modelled from the spec: invite-link patterns of the fixed battery of
the missing analyze_user_message (app/bot/utils/security.py). -/
def INVITE_LINK_PATTERNS : List String := ["t.me/+", "t.me/joinchat"]

/-- Modelled from the spec: service-brand keywords of the fixed battery of
the missing analyze_user_message. -/
def SERVICE_BRAND_KEYWORDS : List String := ["telegram", "support"]

/-- Modelled from the spec: generic URL patterns of the fixed battery of
the missing analyze_user_message. -/
def GENERIC_URL_PATTERNS : List String := ["http://", "https://"]

/-- Case-insensitive containment of a lowercase pattern in a string. -/
def containsLowered (s pat : String) : Bool :=
  decide (pat.toList <:+: lowerChars s)

/-- Result shape of the analyzer: high and medium reason lists plus the
two verdict flags. -/
structure AnalysisResult where
  high : List String
  medium : List String
  triggered : Bool
  should_block : Bool

/-- Modelled from the spec: analyze_user_message of the missing
app/bot/utils/security.py.  Fixed battery per the spec, section 4.2:
invite-link patterns and service-brand keywords are high-risk, a raw at
character in the display name and generic URLs are medium-risk; triggered
is at least one match of any severity, should_block is at least one
high-risk match.  The handle argument is part of the interface; the
battery the claim needs inspects the display name and the message body. -/
def analyze_user_message (full_name username message_text : String) :
    AnalysisResult :=
  let inviteReasons := (INVITE_LINK_PATTERNS.filter
    (fun p => containsLowered message_text p)).map
      (fun p => "invite link " ++ p)
  let brandReasons := (SERVICE_BRAND_KEYWORDS.filter
    (fun k => containsLowered full_name k)).map
      (fun k => "service keyword " ++ k)
  let atReasons := if full_name.toList.contains '@' = true then
      ["at symbol in display name"] else []
  let urlReasons := (GENERIC_URL_PATTERNS.filter
    (fun p => containsLowered message_text p)).map
      (fun p => "generic url " ++ p)
  { high := inviteReasons ++ brandReasons
    medium := atReasons ++ urlReasons
    triggered := !(inviteReasons ++ brandReasons).isEmpty ||
      !(atReasons ++ urlReasons).isEmpty
    should_block := !(inviteReasons ++ brandReasons).isEmpty }

/-- High-severity signal of the battery, independent of the analyzer. -/
def anyHighSignal (full_name message_text : String) : Prop :=
  (∃ p ∈ INVITE_LINK_PATTERNS, containsLowered message_text p = true) ∨
  (∃ k ∈ SERVICE_BRAND_KEYWORDS, containsLowered full_name k = true)

/-- Medium-severity signal of the battery, independent of the analyzer. -/
def anyMediumSignal (full_name message_text : String) : Prop :=
  full_name.toList.contains '@' = true ∨
  (∃ p ∈ GENERIC_URL_PATTERNS, containsLowered message_text p = true)

theorem analyze_high_empty_iff (n u m : String) :
    (analyze_user_message n u m).high = [] ↔ ¬ anyHighSignal n m := by
  show (_ ++ _ : List String) = [] ↔ _
  simp only [List.append_eq_nil, List.map_eq_nil_iff, List.filter_eq_nil_iff,
    anyHighSignal, not_or, not_exists]
  tauto

theorem analyze_medium_empty_iff (n u m : String) :
    (analyze_user_message n u m).medium = [] ↔ ¬ anyMediumSignal n m := by
  show ((if n.toList.contains '@' = true then
      ["at symbol in display name"] else []) ++ _ : List String) = [] ↔ _
  by_cases hat : n.toList.contains '@' = true
  · simp [hat, anyMediumSignal]
  · rw [if_neg hat]
    simp only [List.nil_append, List.map_eq_nil_iff, List.filter_eq_nil_iff,
      anyMediumSignal, not_or, not_exists]
    tauto

theorem strContainsSub_append_self (s p : String) :
    strContainsSub (s ++ p) p = true := by
  apply decide_eq_true
  have hsfx : p.toList <:+ s.toList ++ p.toList := List.suffix_append s.toList p.toList
  have : (s ++ p).toList = s.toList ++ p.toList := by
    simp [String.toList, String.data_append]
  rw [this]
  exact hsfx.isInfix

/-- C8: triggered holds exactly when some pattern of any severity matches
and should_block exactly when some high-risk pattern matches; a message
containing an invite-link pattern always blocks with a high reason that
contains the matched link pattern; an input whose only signals are
medium-severity triggers without blocking; and an input with no signal
does not trigger. -/
theorem C8_security_analyzer_spec :
    ∀ (n u m : String),
      ((analyze_user_message n u m).triggered = true ↔
        (anyHighSignal n m ∨ anyMediumSignal n m)) ∧
      ((analyze_user_message n u m).should_block = true ↔ anyHighSignal n m) ∧
      (∀ p ∈ INVITE_LINK_PATTERNS, containsLowered m p = true →
        (analyze_user_message n u m).should_block = true ∧
        ∃ r ∈ (analyze_user_message n u m).high, strContainsSub r p = true) ∧
      ((analyze_user_message n u m).high = [] →
        (analyze_user_message n u m).medium ≠ [] →
        (analyze_user_message n u m).triggered = true ∧
        (analyze_user_message n u m).should_block = false) ∧
      ((analyze_user_message n u m).high = [] →
        (analyze_user_message n u m).medium = [] →
        (analyze_user_message n u m).triggered = false) := by
  intro n u m
  have hh := analyze_high_empty_iff n u m
  have hm := analyze_medium_empty_iff n u m
  have htrig : (analyze_user_message n u m).triggered =
      (!(analyze_user_message n u m).high.isEmpty ||
       !(analyze_user_message n u m).medium.isEmpty) := rfl
  have hblock : (analyze_user_message n u m).should_block =
      !(analyze_user_message n u m).high.isEmpty := rfl
  have hblock_iff : (analyze_user_message n u m).should_block = true ↔
      anyHighSignal n m := by
    rw [hblock]
    simp only [Bool.not_eq_true', List.isEmpty_eq_false, ne_eq]
    constructor
    · intro h
      by_contra hc
      exact h (hh.mpr hc)
    · intro h hc
      exact (hh.mp hc) h
  refine ⟨?_, hblock_iff, ?_, ?_, ?_⟩
  · rw [htrig]
    simp only [Bool.or_eq_true, Bool.not_eq_true', List.isEmpty_eq_false, ne_eq]
    constructor
    · rintro (h | h)
      · left
        by_contra hc
        exact h (hh.mpr hc)
      · right
        by_contra hc
        exact h (hm.mpr hc)
    · rintro (h | h)
      · left
        intro hc
        exact (hh.mp hc) h
      · right
        intro hc
        exact (hm.mp hc) h
  · intro p hp hc
    refine ⟨hblock_iff.mpr (Or.inl ⟨p, hp, hc⟩), ?_⟩
    refine ⟨"invite link " ++ p, ?_, strContainsSub_append_self "invite link " p⟩
    show _ ∈ (_ ++ _ : List String)
    apply List.mem_append_left
    apply List.mem_map_of_mem
    rw [List.mem_filter]
    exact ⟨hp, hc⟩
  · intro h₁ h₂
    constructor
    · rw [htrig, h₁]
      cases hme : (analyze_user_message n u m).medium with
      | nil => exact absurd hme h₂
      | cons a t => simp
    · rw [hblock, h₁]
      rfl
  · intro h₁ h₂
    rw [htrig, h₁, h₂]
    rfl

/-- Witness for C8 at concrete inputs: an invite link blocks, and a clean
input does not trigger. -/
theorem C8_security_analyzer_spec_witness :
    (analyze_user_message "Bob" "@bob" "see t.me/+abc").should_block = true ∧
    (analyze_user_message "Ann" "@ann" "hello").triggered = false := by
  constructor
  · exact ((C8_security_analyzer_spec "Bob" "@bob" "see t.me/+abc").2.2.1
      "t.me/+" (by decide) (by decide)).1
  · exact (C8_security_analyzer_spec "Ann" "@ann" "hello").2.2.2.2
      (by decide) (by decide)
